import Mathlib

/-!
# Verification of the `sqlvec` crate (`src/lib.rs`)

A shallow embedding of `SqlVec<T>` and its four conversion
implementations (`ToString`, `FromStr` for `SqlVec<String>`, `ToSql`,
`FromSql`), together with proofs of the specified encode/decode
properties.

Element types `T` are embedded by passing their two capabilities
explicitly: `toStr : T → String` (Rust's `ToString`, total) and
`fromStr : String → Option T` (Rust's `FromStr`, with `Err` mapped to
`none`, matching the source's exclusive use of `.ok()` on parse
results).
-/

set_option autoImplicit false

/-- The delimiter character `'\u{F1}'` used by the crate. -/
def delim : Char := Char.ofNat 0xF1

/-- The delimiter as a one-character string, the argument of `join`/`split`. -/
def delimStr : String := String.singleton delim

/-- Core of Rust's `str::split(char)` at the character-list level: returns
the first segment (up to the first occurrence of `c`) paired with the list
of remaining segments. On input `[]` it returns `([], [])`, so the derived
split of `""` is `[""]`, exactly Rust's `"".split(c)` semantics. -/
def splitCharCore (c : Char) : List Char → List Char × List (List Char)
  | [] => ([], [])
  | x :: xs =>
    let r := splitCharCore c xs
    if x = c then ([], r.1 :: r.2) else (x :: r.1, r.2)

/-- Rust's `str::split(c)` collected into a list of substrings. -/
def splitChar (c : Char) (s : String) : List String :=
  ((splitCharCore c s.data).1 :: (splitCharCore c s.data).2).map String.mk

/-- Rust's `[String]::join(sep)`: concatenate with `sep` between
consecutive parts; the empty list joins to `""`. -/
def joinList (sep : String) : List String → String
  | [] => ""
  | [x] => x
  | x :: y :: xs => x ++ sep ++ joinList sep (y :: xs)

/-- Rust's `char::is_whitespace` (the Unicode `White_Space` property),
used by `str::trim`. -/
def rustIsWhitespace (c : Char) : Bool :=
  c.toNat == 0x09 || c.toNat == 0x0A || c.toNat == 0x0B || c.toNat == 0x0C ||
  c.toNat == 0x0D || c.toNat == 0x20 || c.toNat == 0x85 || c.toNat == 0xA0 ||
  c.toNat == 0x1680 || (0x2000 ≤ c.toNat && c.toNat ≤ 0x200A) ||
  c.toNat == 0x2028 || c.toNat == 0x2029 || c.toNat == 0x202F ||
  c.toNat == 0x205F || c.toNat == 0x3000

/-- Rust's `str::trim`: strip leading and trailing whitespace. -/
def rustTrim (s : String) : String :=
  String.mk (((s.data.dropWhile rustIsWhitespace).reverse.dropWhile rustIsWhitespace).reverse)

/-- Rust's `impl FromStr for String` (`Infallible`): every string parses,
to itself. This is the element-level parse used by the `SqlVec<String>`
specialization. -/
def stringFromStr (s : String) : Option String := some s

/-- Rust's `impl FromStr for i64`: optional sign, then one or more ASCII
digits, value within the `i64` range; anything else fails. Used as a
concrete fallible `fromStr` capability. -/
def parseI64? (s : String) : Option Int :=
  match s.data with
  | [] => none
  | c :: rest =>
    let sign : Int := if c = '-' then -1 else 1
    let digits : List Char := if c = '-' ∨ c = '+' then rest else c :: rest
    if digits = [] then none
    else if digits.all Char.isDigit then
      let n : Nat := digits.foldl (fun acc d => acc * 10 + (d.toNat - 48)) 0
      let v : Int := sign * (n : Int)
      if -(2 ^ 63) ≤ v ∧ v < 2 ^ 63 then some v else none
    else none

/-- `pub struct SqlVec<T: ToString + FromStr>(Vec<T>);` -/
structure SqlVec (T : Type) where
  items : List T
deriving DecidableEq

/-- rusqlite's `Value` (the owned SQLite value). The `real` payload is a
float, which none of the verified paths inspect, so it is not carried. -/
inductive Value
  | null
  | integer (i : Int)
  | real
  | text (s : String)
  | blob (bytes : List Nat)
deriving DecidableEq

/-- rusqlite's `FromSqlError` (the constructors relevant to this crate). -/
inductive FromSqlError
  | invalidType
  | outOfRange (i : Int)
  | other
deriving DecidableEq

/-- rusqlite's `Error`, the error type of `to_sql` (never produced here). -/
inductive RusqliteError
  | other
deriving DecidableEq

/-- `ValueRef::as_str`: `Ok` exactly on `Text`, `Err(InvalidType)` on every
other stored representation. -/
def Value.as_str : Value → Except FromSqlError String
  | .text s => .ok s
  | _ => .error .invalidType

/-- `SqlVec::new`: collect an iterable into the wrapped vector. -/
def SqlVec.new {T : Type} (items : List T) : SqlVec T :=
  ⟨items⟩

/-- `SqlVec::into_inner`: consume the wrapper, returning the vector. -/
def SqlVec.into_inner {T : Type} (v : SqlVec T) : List T :=
  v.items

/-- `SqlVec::inner`: borrow the wrapped vector. -/
def SqlVec.inner {T : Type} (v : SqlVec T) : List T :=
  v.items

/-- `impl ToString for SqlVec<T>`: map each element through `to_string`
and join with the delimiter. -/
def SqlVec.toString {T : Type} (toStr : T → String) (v : SqlVec T) : String :=
  joinList delimStr (v.items.map toStr)

/-- `impl FromStr for SqlVec<String>`: split on the delimiter, trim each
piece, parse (infallibly) as `String`, keep the successes. -/
def SqlVec.fromStr (s : String) : SqlVec String :=
  ⟨(splitChar delim s).filterMap (fun t => stringFromStr (rustTrim t))⟩

/-- `impl ToSql for SqlVec<T>`: map each element through `to_string`, join
with the delimiter, and wrap as an owned `Value::Text`; always `Ok`. -/
def SqlVec.to_sql {T : Type} (toStr : T → String) (v : SqlVec T) :
    Except RusqliteError Value :=
  .ok (.text (joinList delimStr (v.items.map toStr)))

/-- `impl FromSql for SqlVec<T>` (`column_result`): require a text value
via `as_str`, split on the delimiter, parse each piece with `T`'s
`from_str`, silently keep only the successes. -/
def SqlVec.column_result {T : Type} (fromStr : String → Option T) (value : Value) :
    Except FromSqlError (SqlVec T) :=
  match value.as_str with
  | .error e => .error e
  | .ok s => .ok ⟨(splitChar delim s).filterMap fromStr⟩

/-- `impl Default for SqlVec<T>`: the empty vector, with no `Default`
bound on `T`. -/
def SqlVec.default {T : Type} : SqlVec T :=
  ⟨[]⟩

/-- Number of occurrences of a character in a character list (used to state
the segment-count property of the string decode path). -/
def countChar (c : Char) : List Char → Nat
  | [] => 0
  | x :: xs => (if x = c then 1 else 0) + countChar c xs

deriving instance DecidableEq for Except

theorem string_data_append (s t : String) : (s ++ t).data = s.data ++ t.data := rfl

theorem string_mk_data (s : String) : String.mk s.data = s := rfl

theorem splitCharCore_of_not_mem (c : Char) (l : List Char) (h : c ∉ l) :
    splitCharCore c l = (l, []) := by
  induction l with
  | nil => rfl
  | cons x xs ih =>
    rw [List.mem_cons, not_or] at h
    simp only [splitCharCore, ih h.2, if_neg (Ne.symm h.1)]

theorem splitCharCore_append (c : Char) (p l : List Char) (hp : c ∉ p) :
    splitCharCore c (p ++ c :: l) = (p, (splitCharCore c l).1 :: (splitCharCore c l).2) := by
  induction p with
  | nil => simp [splitCharCore]
  | cons x xs ih =>
    rw [List.mem_cons, not_or] at hp
    simp [splitCharCore, Ne.symm hp.1, ih hp.2]

theorem splitCharCore_snd_length (c : Char) (l : List Char) :
    (splitCharCore c l).2.length = countChar c l := by
  induction l with
  | nil => rfl
  | cons x xs ih =>
    by_cases hx : x = c
    · simp [splitCharCore, countChar, hx, ih]
      omega
    · simp [splitCharCore, countChar, hx, ih]

theorem splitChar_of_not_mem (c : Char) (s : String) (h : c ∉ s.data) :
    splitChar c s = [s] := by
  simp only [splitChar, splitCharCore_of_not_mem c s.data h, List.map_cons, List.map_nil]

theorem splitChar_join (c : Char) : ∀ (parts : List String), parts ≠ [] →
    (∀ p ∈ parts, c ∉ p.data) →
    splitChar c (joinList (String.singleton c) parts) = parts
  | [], hne, _ => absurd rfl hne
  | [x], _, h => by
    have hx : c ∉ x.data := h x (List.mem_cons_self x [])
    show splitChar c x = [x]
    exact splitChar_of_not_mem c x hx
  | x :: y :: ys, _, h => by
    have hx : c ∉ x.data := h x (List.mem_cons_self x (y :: ys))
    have ihr := splitChar_join c (y :: ys) (by simp)
      (fun p hp => h p (List.mem_cons_of_mem x hp))
    have hdata : (joinList (String.singleton c) (x :: y :: ys)).data
        = x.data ++ c :: (joinList (String.singleton c) (y :: ys)).data := by
      show (x ++ String.singleton c ++ joinList (String.singleton c) (y :: ys)).data = _
      rw [string_data_append, string_data_append]
      simp [String.singleton]
    have hcore := splitCharCore_append c x.data
      (joinList (String.singleton c) (y :: ys)).data hx
    show ((splitCharCore c (joinList (String.singleton c) (x :: y :: ys)).data).1 ::
        (splitCharCore c (joinList (String.singleton c) (x :: y :: ys)).data).2).map String.mk
        = x :: y :: ys
    rw [hdata, hcore]
    show (x.data :: (splitCharCore c (joinList (String.singleton c) (y :: ys)).data).1 ::
        (splitCharCore c (joinList (String.singleton c) (y :: ys)).data).2).map String.mk
        = x :: y :: ys
    rw [List.map_cons, string_mk_data]
    exact congrArg (x :: ·) ihr

theorem splitChar_length (c : Char) (s : String) :
    (splitChar c s).length = countChar c s.data + 1 := by
  simp [splitChar, splitCharCore_snd_length]

theorem splitChar_join_delim (parts : List String) (hne : parts ≠ [])
    (h : ∀ p ∈ parts, delim ∉ p.data) :
    splitChar delim (joinList delimStr parts) = parts :=
  splitChar_join delim parts hne h

theorem filterMap_of_inverse {T : Type} (toStr : T → String) (fromStr : String → Option T)
    (l : List T) (h : ∀ x ∈ l, fromStr (toStr x) = some x) :
    (l.map toStr).filterMap fromStr = l := by
  induction l with
  | nil => rfl
  | cons x xs ih =>
    simp only [List.map_cons, List.filterMap_cons, h x (List.mem_cons_self x xs)]
    rw [ih (fun y hy => h y (List.mem_cons_of_mem x hy))]

theorem filterMap_trim (l : List String) :
    l.filterMap (fun t => stringFromStr (rustTrim t)) = l.map rustTrim := by
  induction l with
  | nil => rfl
  | cons x xs ih =>
    simp only [stringFromStr] at ih ⊢
    simp [List.filterMap_cons, ih]

theorem filterMap_length_add {α β : Type} (f : α → Option β) (l : List α) :
    (l.filterMap f).length + (l.filter (fun x => (f x).isNone)).length = l.length := by
  induction l with
  | nil => rfl
  | cons x xs ih =>
    cases hx : f x with
    | none =>
      simp [List.filterMap_cons, List.filter_cons, hx]
      omega
    | some y =>
      simp [List.filterMap_cons, List.filter_cons, hx]
      omega

theorem filterMap_filter_isSome {α β : Type} (f : α → Option β) (l : List α) :
    (l.filter (fun x => (f x).isSome)).filterMap f = l.filterMap f := by
  induction l with
  | nil => rfl
  | cons x xs ih =>
    cases hx : f x with
    | none => simp [List.filter_cons, List.filterMap_cons, hx, ih]
    | some y => simp [List.filter_cons, List.filterMap_cons, hx, ih]

theorem map_fixed {α : Type} (f : α → α) (l : List α) (h : ∀ x ∈ l, f x = x) :
    l.map f = l := by
  induction l with
  | nil => rfl
  | cons x xs ih =>
    simp [h x (List.mem_cons_self x xs), ih (fun y hy => h y (List.mem_cons_of_mem x hy))]

theorem fromStr_eq_map_trim (s : String) :
    SqlVec.fromStr s = ⟨(splitChar delim s).map rustTrim⟩ := by
  unfold SqlVec.fromStr
  rw [filterMap_trim]

theorem column_result_text {T : Type} (fromStr : String → Option T) (s : String) :
    SqlVec.column_result fromStr (Value.text s)
      = .ok ⟨(splitChar delim s).filterMap fromStr⟩ := rfl

/-- C1 (counterexample): the round-trip claim fails as stated. In the
string-element specialization, the element `" one"` has a display string
(itself) containing no delimiter, and the string element parse is a
perfect inverse, yet decoding the encoded form of `[" one"]` trims the
surrounding whitespace and yields `["one"]`, not `[" one"]`. -/
theorem sqlvec_C1_counterexample :
    delim ∉ (" one" : String).data
    ∧ stringFromStr " one" = some " one"
    ∧ SqlVec.fromStr (SqlVec.toString id (⟨[" one"]⟩ : SqlVec String)) = ⟨["one"]⟩
    ∧ (⟨["one"]⟩ : SqlVec String) ≠ (⟨[" one"]⟩ : SqlVec String) := by
  decide

/-- C1 (amended): for a sequence whose elements' display strings contain
no delimiter and whose to-string/from-string pair is a perfect inverse,
decoding the encoded form via the database-extraction path yields the
sequence back, provided additionally that the empty string does not parse
when the sequence is empty; the string-element from-string specialization
round-trips only nonempty sequences of elements that are unchanged by
trimming. -/
theorem sqlvec_C1_roundtrip_amended :
    (∀ (T : Type) (toStr : T → String) (fromStr : String → Option T) (v : SqlVec T),
      (∀ x ∈ v.items, delim ∉ (toStr x).data) →
      (∀ x ∈ v.items, fromStr (toStr x) = some x) →
      (v.items = [] → fromStr "" = none) →
      SqlVec.column_result fromStr (Value.text (SqlVec.toString toStr v)) = .ok v)
    ∧
    (∀ (v : SqlVec String),
      v.items ≠ [] →
      (∀ x ∈ v.items, delim ∉ x.data) →
      (∀ x ∈ v.items, rustTrim x = x) →
      SqlVec.fromStr (SqlVec.toString id v) = v) := by
  constructor
  · intro T toStr fromStr v h1 h2 h3
    obtain ⟨l⟩ := v
    cases l with
    | nil =>
      have h0 : fromStr "" = none := h3 rfl
      show SqlVec.column_result fromStr (Value.text "") = .ok ⟨[]⟩
      rw [column_result_text]
      rw [show splitChar delim "" = [""] from rfl]
      simp [List.filterMap_cons, h0]
    | cons x xs =>
      have hmapne : List.map toStr (x :: xs) ≠ [] := by simp
      have hnomem : ∀ p ∈ List.map toStr (x :: xs), delim ∉ p.data := by
        intro p hp
        obtain ⟨y, hy, rfl⟩ := List.mem_map.mp hp
        exact h1 y hy
      rw [column_result_text]
      have hsplit : splitChar delim (SqlVec.toString toStr ⟨x :: xs⟩)
          = List.map toStr (x :: xs) :=
        splitChar_join_delim (List.map toStr (x :: xs)) hmapne hnomem
      rw [hsplit, filterMap_of_inverse toStr fromStr (x :: xs) h2]
  · intro v hne h1 h2
    obtain ⟨l⟩ := v
    have hlne : l ≠ [] := hne
    rw [fromStr_eq_map_trim]
    have hid : SqlVec.toString id (⟨l⟩ : SqlVec String) = joinList delimStr l := by
      show joinList delimStr (l.map id) = joinList delimStr l
      rw [List.map_id]
    rw [hid, splitChar_join_delim l hlne h1, map_fixed rustTrim l h2]

/-- C1 (witness for the amended theorem): the extraction path round-trips
`[1, 2]` over `i64`, and the string from-string path round-trips
`["one", "two"]`. -/
theorem sqlvec_C1_roundtrip_amended_witness :
    SqlVec.column_result parseI64?
        (Value.text (SqlVec.toString Int.repr (⟨[1, 2]⟩ : SqlVec Int)))
      = .ok ⟨[1, 2]⟩
    ∧ SqlVec.fromStr (SqlVec.toString id (⟨["one", "two"]⟩ : SqlVec String))
      = ⟨["one", "two"]⟩ :=
  ⟨sqlvec_C1_roundtrip_amended.1 Int Int.repr parseI64? ⟨[1, 2]⟩
      (by decide) (by decide) (by decide),
   sqlvec_C1_roundtrip_amended.2 ⟨["one", "two"]⟩ (by decide) (by decide) (by decide)⟩

/-- C2: decoding a delimited text through the database-extraction path
yields exactly the parseable segments: the result is the `filterMap` of
the segments, its length is the segment count minus the count of
unparseable segments, it is insensitive to first discarding the failing
segments (so the relative order of the parseable segments is kept), and
for `i64` elements `"1\u{F1}x\u{F1}3"` decodes to `[1, 3]`. -/
theorem sqlvec_C2_silent_drop :
    (∀ (T : Type) (fromStr : String → Option T) (s : String),
      SqlVec.column_result fromStr (Value.text s)
          = .ok ⟨(splitChar delim s).filterMap fromStr⟩
      ∧ ((splitChar delim s).filterMap fromStr).length
          = (splitChar delim s).length
            - ((splitChar delim s).filter (fun t => (fromStr t).isNone)).length
      ∧ ((splitChar delim s).filter (fun t => (fromStr t).isSome)).filterMap fromStr
          = (splitChar delim s).filterMap fromStr)
    ∧ SqlVec.column_result parseI64?
        (Value.text ("1" ++ delimStr ++ "x" ++ delimStr ++ "3"))
      = .ok ⟨[(1 : Int), 3]⟩ := by
  constructor
  · intro T fromStr s
    refine ⟨rfl, ?_, filterMap_filter_isSome fromStr (splitChar delim s)⟩
    have h := filterMap_length_add fromStr (splitChar delim s)
    omega
  · decide

/-- C3: `to_sql` succeeds on every sequence; `column_result` fails exactly
on non-text stored values, and the only error it ever returns is
`invalidType` (the stored-representation mismatch). -/
theorem sqlvec_C3_error_policy :
    ∀ (T : Type) (toStr : T → String) (fromStr : String → Option T)
      (v : SqlVec T) (value : Value),
      (∃ out, SqlVec.to_sql toStr v = Except.ok out)
      ∧ ((∃ e, SqlVec.column_result (T := T) fromStr value = Except.error e)
          ↔ ∀ s, value ≠ Value.text s)
      ∧ (∀ e, SqlVec.column_result (T := T) fromStr value = Except.error e
          → e = FromSqlError.invalidType) := by
  intro T toStr fromStr v value
  refine ⟨⟨Value.text (joinList delimStr (v.items.map toStr)), rfl⟩, ?_, ?_⟩
  · constructor
    · rintro ⟨e, he⟩ s hs
      subst hs
      rw [column_result_text] at he
      exact Except.noConfusion he
    · intro hall
      cases value with
      | text s => exact absurd rfl (hall s)
      | null => exact ⟨.invalidType, rfl⟩
      | integer i => exact ⟨.invalidType, rfl⟩
      | real => exact ⟨.invalidType, rfl⟩
      | blob b => exact ⟨.invalidType, rfl⟩
  · intro e he
    cases value with
    | text s =>
      rw [column_result_text] at he
      exact Except.noConfusion he
    | null => exact (Except.error.inj he).symm
    | integer i => exact (Except.error.inj he).symm
    | real => exact (Except.error.inj he).symm
    | blob b => exact (Except.error.inj he).symm

/-- C3 (witness): extracting from the non-text stored value `integer 7`
returns exactly the `invalidType` error. -/
theorem sqlvec_C3_error_policy_witness :
    FromSqlError.invalidType = FromSqlError.invalidType :=
  (sqlvec_C3_error_policy Int Int.repr parseI64? ⟨[5]⟩ (Value.integer 7)).2.2
    FromSqlError.invalidType rfl

/-- C4: the string-element specialization trims each delimited piece
(`fromStr` is split-then-trim), while the generic extraction path parses
each piece untrimmed; concretely, `" 1 "` is kept as `"1"` by the string
specialization, but fails to parse as an `i64` on the generic path. -/
theorem sqlvec_C4_trim_asymmetry :
    (∀ s : String, SqlVec.fromStr s = ⟨(splitChar delim s).map rustTrim⟩)
    ∧ (∀ (T : Type) (fromStr : String → Option T) (s : String),
        SqlVec.column_result fromStr (Value.text s)
          = .ok ⟨(splitChar delim s).filterMap fromStr⟩)
    ∧ SqlVec.fromStr " 1 " = ⟨["1"]⟩
    ∧ SqlVec.column_result parseI64? (Value.text " 1 ") = .ok ⟨([] : List Int)⟩ :=
  ⟨fromStr_eq_map_trim, fun _ fromStr s => column_result_text fromStr s,
   by decide, by decide⟩

/-- C5: encoding maps each element to its display string and joins with
the delimiter in order: the empty sequence encodes to `""`, a singleton
to its display string, a longer sequence to head, delimiter, then the
encoding of the tail; and `["one", "two"]` encodes to
`"one" ++ delimiter ++ "two"`. -/
theorem sqlvec_C5_encode_join :
    (∀ (T : Type) (toStr : T → String),
      SqlVec.toString toStr ⟨[]⟩ = ""
      ∧ (∀ x : T, SqlVec.toString toStr ⟨[x]⟩ = toStr x)
      ∧ (∀ (x y : T) (rest : List T),
          SqlVec.toString toStr ⟨x :: y :: rest⟩
            = toStr x ++ delimStr ++ SqlVec.toString toStr ⟨y :: rest⟩))
    ∧ SqlVec.toString id (⟨["one", "two"]⟩ : SqlVec String)
        = "one" ++ delimStr ++ "two" :=
  ⟨fun _ toStr => ⟨rfl, fun _ => rfl, fun _ _ _ => rfl⟩, rfl⟩

/-- C6: the string-element specialization splits on the delimiter, trims
each piece, and keeps every piece (the result has exactly as many
elements as there are segments); `"one" ++ delimiter ++ "two"` decodes to
`["one", "two"]`. -/
theorem sqlvec_C6_string_decode :
    (∀ s : String, SqlVec.fromStr s = ⟨(splitChar delim s).map rustTrim⟩)
    ∧ (∀ s : String, (SqlVec.fromStr s).items.length = (splitChar delim s).length)
    ∧ SqlVec.fromStr ("one" ++ delimStr ++ "two") = ⟨["one", "two"]⟩ := by
  refine ⟨fromStr_eq_map_trim, ?_, by decide⟩
  intro s
  rw [fromStr_eq_map_trim]
  simp

/-- C7: the display string and the value bound into the database
interface agree: `to_sql` always returns `Ok` of exactly the `Text` value
whose contents are the `to_string` encoding. -/
theorem sqlvec_C7_display_eq_sql :
    ∀ (T : Type) (toStr : T → String) (v : SqlVec T),
      SqlVec.to_sql toStr v = .ok (Value.text (SqlVec.toString toStr v)) :=
  fun _ _ _ => rfl

/-- C8: `new` collects the given values in order without validation and
`into_inner` returns exactly that underlying sequence, including for the
empty input. -/
theorem sqlvec_C8_new_into_inner :
    ∀ (T : Type) (l : List T),
      (SqlVec.new l).into_inner = l
      ∧ (SqlVec.new l).items = l
      ∧ (SqlVec.new ([] : List T)).into_inner = ([] : List T) :=
  fun _ _ => ⟨rfl, rfl, rfl⟩

/-- C9: the string-element specialization never drops a segment: the
decoded sequence has exactly (number of delimiter occurrences) + 1
elements; in particular `""` decodes to the one-element sequence `[""]`,
which is not the empty sequence. -/
theorem sqlvec_C9_no_drop_string :
    (∀ s : String, (SqlVec.fromStr s).items.length = countChar delim s.data + 1)
    ∧ SqlVec.fromStr "" = ⟨[""]⟩
    ∧ (⟨[""]⟩ : SqlVec String) ≠ (⟨[]⟩ : SqlVec String) := by
  refine ⟨?_, by decide, by decide⟩
  intro s
  rw [fromStr_eq_map_trim]
  simp [splitChar_length]

/-- C10: for `String` elements the extraction path and the from-string
specialization are different functions: extraction does not trim, so the
stored text `" a"` extracts to `[" a"]` while the from-string parse
yields `["a"]`. -/
theorem sqlvec_C10_paths_differ :
    SqlVec.column_result stringFromStr (Value.text " a") = .ok ⟨[" a"]⟩
    ∧ SqlVec.fromStr " a" = ⟨["a"]⟩
    ∧ ((" a" : String) ≠ "a")
    ∧ ∃ s : String, SqlVec.column_result stringFromStr (Value.text s)
        ≠ .ok (SqlVec.fromStr s) :=
  ⟨by decide, by decide, by decide, ⟨" a", by decide⟩⟩
